import Mathlib

/-!
# Verification of the Sales-Dashboard data engine

A shallow embedding, in Lean 4, of the data normalization and aggregation
engine of `src/app/page.tsx` (a client-side sales dashboard): field
resolution over raw CSV records (`pick`), numeric and date coercion
(`toNumber`, `parseDate`), row normalization, the multi-dimensional filter,
and the aggregation views (grouped sums, monthly buckets, KPIs, insights,
scatter projection).

Modelling conventions:

* JavaScript numbers are modelled as `Option ℚ`: `some q` is the finite
  number `q`, `none` is a non-finite number (`NaN`; the pipeline never
  produces infinities from the finite inputs modelled here, and rational
  arithmetic idealizes IEEE-754 doubles — additions are exact).
  Arithmetic on `ℚ` is phrased through `Rat.divInt` (`qAdd`, `qSub`, proved
  equal to `+`/`-` below) so that every definition evaluates inside the
  kernel; Batteries marks `Rat.add` etc. irreducible.
* JavaScript strings are Lean `String`s; the character-level operations
  (`trim`, `toLowerCase`, `split`, the `Number()` grammar) are defined
  below directly on the underlying character lists so that everything
  reduces inside the kernel.  Whitespace and case folding are modelled at
  ASCII granularity, which covers every string the dashboard manipulates.
* A JavaScript `Date` is either `invalid` (an "Invalid Date" object) or a
  `(year, monthIndex, day)` triple.  The `new Date(y, m, d)` constructor's
  two-digit-year rule and month-index overflow are modelled; overflow of
  the day-of-month (calendar normalization) and time zones are not — no
  claim below depends on them.
-/

set_option maxRecDepth 8000

/-- Kernel-computable addition on `ℚ` (see `qAdd_eq`). -/
def qAdd (a b : ℚ) : ℚ :=
  Rat.divInt (a.num * (b.den : Int) + b.num * (a.den : Int))
    ((a.den : Int) * (b.den : Int))

/-- Kernel-computable subtraction on `ℚ` (see `qSub_eq`). -/
def qSub (a b : ℚ) : ℚ := qAdd a (-b)

/-- JavaScript whitespace (the `\s` class / `trim`), at ASCII granularity:
space, tab, CR, LF. -/
def jsIsWhitespace (c : Char) : Bool := c.isWhitespace

/-- `String.prototype.trim`: drop leading and trailing whitespace. -/
def trimStr (s : String) : String :=
  ⟨((s.data.dropWhile jsIsWhitespace).reverse.dropWhile jsIsWhitespace).reverse⟩

/-- `String.prototype.toLowerCase`, at ASCII granularity. -/
def lowerStr (s : String) : String := ⟨s.data.map Char.toLower⟩

/-- Does the string contain the character? (JS `String.prototype.includes`
with a one-character needle.) -/
def strContains (s : String) (c : Char) : Bool := s.data.contains c

/-- Helper for `splitOnChar`: accumulates the current (reversed) field. -/
def splitOnCharAux (sep : Char) : List Char → List Char → List String
  | [], acc => [⟨acc.reverse⟩]
  | c :: rest, acc =>
    if c = sep then ⟨acc.reverse⟩ :: splitOnCharAux sep rest []
    else splitOnCharAux sep rest (c :: acc)

/-- JS `String.prototype.split` with a one-character separator: keeps empty
fields, and `"".split(sep) = [""]`. -/
def splitOnChar (sep : Char) (s : String) : List String :=
  splitOnCharAux sep s.data []

/-- Numeric value of a list of decimal digits (most significant first). -/
def digitsNat : List Char → Nat
  | [] => 0
  | c :: rest => digitsNat rest + (c.toNat - '0'.toNat) * 10 ^ rest.length

/-- The unsigned part of the JS `Number()` string grammar restricted to
plain decimal literals: `digits`, `digits.digits`, `digits.`, `.digits`.
The value of `ip.fp` is `digitsNat (ip ++ fp) / 10 ^ |fp|`, i.e.
`ip + fp / 10 ^ |fp|`.  (Exponent, hexadecimal/binary/octal and `Infinity`
forms are not modelled; they never occur in the data the dashboard
coerces.)  `none` is `NaN`. -/
def parseUnsignedDec (cs : List Char) : Option ℚ :=
  match (splitOnCharAux '.' cs []).map String.data with
  | [ip] =>
    if ip ≠ [] ∧ ip.all Char.isDigit then some (digitsNat ip : ℚ) else none
  | [ip, fp] =>
    if (ip ++ fp) ≠ [] ∧ ip.all Char.isDigit ∧ fp.all Char.isDigit then
      some (Rat.divInt (digitsNat (ip ++ fp) : Int) ((10 : Int) ^ fp.length))
    else none
  | _ => none

/-- Signed decimal literal. -/
def parseSignedDec : List Char → Option ℚ
  | '+' :: rest => parseUnsignedDec rest
  | '-' :: rest => (parseUnsignedDec rest).map Neg.neg
  | cs => parseUnsignedDec cs

/-- JS `Number(string)`: trim; the empty remainder is `0`; otherwise parse a
signed decimal literal; `none` models `NaN`. -/
def jsStrNumber (s : String) : Option ℚ :=
  let t := trimStr s
  if t = "" then some 0 else parseSignedDec t.data

/-- A JavaScript number: `some q` is finite, `none` is non-finite (`NaN`). -/
abbrev JSNum := Option ℚ

/-- JS `+` on numbers: `NaN` propagates. -/
def jsAdd : JSNum → JSNum → JSNum
  | some x, some y => some (qAdd x y)
  | _, _ => none

/-- A JS number is truthy iff it is neither `0` nor `NaN`. -/
def jsTruthyNum : JSNum → Bool
  | some q => decide (q ≠ 0)
  | none => false

/-- JS `n - k` for a numeric literal `k`. -/
def jsSubQ (n : JSNum) (k : ℚ) : JSNum := n.map (fun q => qSub q k)

/-- JS `n > k` for a numeric literal `k`; false when `n` is `NaN`. -/
def jsGtQ (n : JSNum) (k : ℚ) : Bool :=
  match n with
  | some q => decide (k < q)
  | none => false

/-- `Number.isFinite`. -/
def jsFinite (n : JSNum) : Bool := n.isSome

/-- The rational carried by a finite JS number (`0` for `NaN`; every value
this is applied to below is proved finite). -/
def qOf (n : JSNum) : ℚ := n.getD 0

/-- Truncation toward zero, as ECMAScript's `ToIntegerOrInfinity` applied to
a finite number. -/
def truncQ (q : ℚ) : Int := if q < 0 then -((-q).floor) else q.floor

/-- A JavaScript `Date` value: either an "Invalid Date" object, or a valid
date identified by its local `getFullYear()`, `getMonth()` (0-based) and
`getDate()` components. -/
inductive JSDateV where
  | invalid
  | valid (year : Int) (monthIdx : Int) (day : Int)
deriving DecidableEq, Repr

/-- Number of days in month `m` (1-based) of year `y` (proleptic Gregorian). -/
def daysInMonth (y : Int) (m : Nat) : Nat :=
  if m = 2 then
    if (y.emod 4 = 0 ∧ y.emod 100 ≠ 0) ∨ y.emod 400 = 0 then 29 else 28
  else if m = 4 ∨ m = 6 ∨ m = 9 ∨ m = 11 then 30
  else if 1 ≤ m ∧ m ≤ 12 then 31
  else 0

/-- The `new Date(year, monthIndex, day)` constructor.  Any `NaN` argument
gives an Invalid Date.  Finite arguments are truncated toward zero; a year
`0..99` is read as `1900..1999`; an out-of-range month index carries into
the year.  (Day-of-month overflow — calendar normalization — and the
±8.64e15 ms clipping are not modelled; no claim depends on them.) -/
def jsMakeDate (y m d : JSNum) : JSDateV :=
  match y, m, d with
  | some yq, some mq, some dq =>
    let yi := truncQ yq
    let mi := truncQ mq
    let yr := if 0 ≤ yi ∧ yi ≤ 99 then 1900 + yi else yi
    JSDateV.valid (yr + mi.ediv 12) (mi.emod 12) (truncQ dq)
  | _, _, _ => JSDateV.invalid

/-- Model of `new Date(string)` general parsing, restricted to the
ECMA-262 Date Time String Format date-only forms `YYYY`, `YYYY-MM` and
`YYYY-MM-DD` (with in-range month and day).  Engine-specific fallback
formats are treated as unparseable — the host's legacy parser is
implementation-defined, and the spec pins only ISO parsing ("`2015-03-15`
(ISO) parses directly").  A date-only form denotes midnight; the local
time zone is identified with UTC, so components are read back verbatim. -/
def jsNewDateStr (s : String) : JSDateV :=
  let isNum := fun (cs : List Char) => cs.all Char.isDigit
  match (splitOnChar '-' s).map String.data with
  | [y] =>
    if y.length = 4 ∧ isNum y then JSDateV.valid (digitsNat y) 0 1
    else JSDateV.invalid
  | [y, m] =>
    if y.length = 4 ∧ isNum y ∧ m.length = 2 ∧ isNum m ∧
        1 ≤ digitsNat m ∧ digitsNat m ≤ 12 then
      JSDateV.valid (digitsNat y) (digitsNat m - 1 : Nat) 1
    else JSDateV.invalid
  | [y, m, d] =>
    if y.length = 4 ∧ isNum y ∧ m.length = 2 ∧ isNum m ∧
        1 ≤ digitsNat m ∧ digitsNat m ≤ 12 ∧ d.length = 2 ∧ isNum d ∧
        1 ≤ digitsNat d ∧ digitsNat d ≤ daysInMonth (digitsNat y) (digitsNat m)
        then
      JSDateV.valid (digitsNat y) (digitsNat m - 1 : Nat) (digitsNat d)
    else JSDateV.invalid
  | _ => JSDateV.invalid

/-- `Number(component)` for a possibly-missing part of a split string
(`Number(undefined)` is `NaN`). -/
def jsNumOfPart (o : Option String) : JSNum :=
  match o with
  | none => none
  | some t => jsStrNumber t

/-- The dash/dot branch of `parseDate` (`src/app/page.tsx:57-65`): on a
string containing `-` or `.` (dash wins), split, and if there are exactly
three parts, build a date disambiguated by the magnitude of the first
component: `a > 12` ⇒ `new Date(c, b-1, a)`, else `new Date(c, a-1, b)`. -/
def dashDotStep (str : String) : Option JSDateV :=
  if strContains str '-' ∨ strContains str '.' then
    let sep := if strContains str '-' then '-' else '.'
    let parts := (splitOnChar sep str).map trimStr
    if parts.length = 3 then
      let a := jsNumOfPart (parts.get? 0)
      let b := jsNumOfPart (parts.get? 1)
      let c := jsNumOfPart (parts.get? 2)
      if jsGtQ a 12 then some (jsMakeDate c (jsSubQ b 1) a)
      else some (jsMakeDate c (jsSubQ a 1) b)
    else none
  else none

/-- `parseDate` (`src/app/page.tsx:44-67`) on a textual (or absent) input;
the `v instanceof Date` branch is unreachable here since every call site
passes the string produced by `pick`.  `none` models `null`. -/
def parseDate (v : Option String) : Option JSDateV :=
  match v with
  | none => none
  | some s =>
    if s = "" then none
    else
      let str := trimStr s
      let iso := jsNewDateStr str
      if iso ≠ JSDateV.invalid then some iso
      else if strContains str '/' then
        let parts := splitOnChar '/' str
        let m := jsNumOfPart (parts.get? 0)
        let d := jsNumOfPart (parts.get? 1)
        let y := jsNumOfPart (parts.get? 2)
        if jsTruthyNum m ∧ jsTruthyNum d ∧ jsTruthyNum y then
          some (jsMakeDate y (jsSubQ m 1) d)
        else dashDotStep str
      else dashDotStep str

/-- `monthKey` (`src/app/page.tsx:69-74`): `"YYYY-MM"` with a zero-padded
month; on an Invalid Date both `getFullYear()` and `getMonth()` are `NaN`
and the template yields `"NaN-NaN"`. -/
def monthKey : JSDateV → String
  | JSDateV.invalid => "NaN-NaN"
  | JSDateV.valid y mIdx _ =>
    let m := mIdx + 1
    let mm := if m < 10 then "0" ++ toString m else toString m
    toString y ++ "-" ++ mm

/-- A parsed CSV record: an ordered association of keys to values, `none`
being JS `null`.  (A JS object cannot repeat a key; lookups take the first
occurrence.) -/
abbrev RawRecord := List (String × Option String)

/-- First-match association-list lookup (JS property access / `Map.get`). -/
def mapGet {κ β : Type} [DecidableEq κ] : List (κ × β) → κ → Option β
  | [], _ => none
  | (k0, v0) :: t, k => if k0 = k then some v0 else mapGet t k

/-- In-place insertion-order-preserving update (JS `Map.set`): overwrite the
existing entry for the key, else append. -/
def mapSet {κ β : Type} [DecidableEq κ] : List (κ × β) → κ → β → List (κ × β)
  | [], k, v => [(k, v)]
  | (k0, v0) :: t, k, v =>
    if k0 = k then (k, v) :: t else (k0, v0) :: mapSet t k v

/-- `kk.toLowerCase().trim()`, the key folding used by `pick`'s second
pass. -/
def lowerTrim (s : String) : String := trimStr (lowerStr s)

/-- One step of `pick`'s first loop (`src/app/page.tsx:25-27`): does alias
`k` match a key of `r` exactly, with a non-null value that is non-empty
after trimming?  If so, the trimmed value. -/
def exactHit (r : RawRecord) (k : String) : Option String :=
  match mapGet r k with
  | some (some v) => if trimStr v ≠ "" then some (trimStr v) else none
  | _ => none

/-- The folded-key index of `pick`'s second pass (`src/app/page.tsx:28-29`):
a `Map` from `lowerTrim`-folded key to actual key, built over the record's
keys in order — a later key overwrites an earlier one with the same folded
form. -/
def ciIndex (r : RawRecord) : List (String × String) :=
  r.foldl (fun m p => mapSet m (lowerTrim p.1) p.1) []

/-- One step of `pick`'s second loop (`src/app/page.tsx:30-33`): look the
folded alias up in the index; the resulting key must be truthy (non-empty)
and hold a non-null value that is non-empty after trimming. -/
def ciHit (r : RawRecord) (want : String) : Option String :=
  match mapGet (ciIndex r) (lowerTrim want) with
  | some real =>
    if real ≠ "" then
      match mapGet r real with
      | some (some v) => if trimStr v ≠ "" then some (trimStr v) else none
      | _ => none
    else none
  | none => none

/-- `pick` (`src/app/page.tsx:24-35`): first alias with an exact hit; if
none, first alias with a case-insensitive hit; else `""`. -/
def pick (r : RawRecord) (keys : List String) : String :=
  match keys.findSome? (fun k => exactHit r k) with
  | some v => v
  | none =>
    match keys.findSome? (fun k => ciHit r k) with
    | some v => v
    | none => ""

/-- The character class stripped by `toNumber`'s
`String(v).replace(/[$,%\s]/g, "")`. -/
def stripNumJunk (s : String) : String :=
  ⟨s.data.filter (fun c => !(c == '$' || c == ',' || c == '%' || jsIsWhitespace c))⟩

/-- `toNumber` (`src/app/page.tsx:37-42`): `null` ⇒ `0`; strip `$`, `,`,
`%`, whitespace; `Number(...)`; a non-finite result ⇒ `0`.  Always finite
(`some`). -/
def toNumber (v : Option String) : JSNum :=
  match v with
  | none => some 0
  | some s =>
    match jsStrNumber (stripNumJunk s) with
    | some q => some q
    | none => some 0

/-- A Canonical Row (`type Row`, `src/app/page.tsx:107-125`). -/
structure Row where
  __orderId : String
  __orderDate : Option JSDateV
  __shipDate : Option JSDateV
  __sales : JSNum
  __profit : JSNum
  __discount : JSNum
  __region : String
  __segment : String
  __category : String
  __subCategory : String
  __shipMode : String
  __state : String
  __productContainer : String
  __productName : String
  __baseMargin : JSNum
deriving DecidableEq, Repr

/-- JS `s || d` for a string `s`: the default applies exactly when `s` is
empty (the only falsy string). -/
def jsOrDefault (s d : String) : String := if s = "" then d else s

/-- JS `n || 0` for a number `n`: `NaN` (and `0` itself) become `0`. -/
def jsNumOrZero (n : JSNum) : JSNum :=
  match n with
  | none => some 0
  | some q => some q

/-- The Row Normalizer: the mapping function of the `rows` memo
(`src/app/page.tsx:247-277`), alias tables copied verbatim. -/
def rowOfRaw (r : RawRecord) : Row :=
  let od := parseDate (some (pick r
    ["Order Date", "order date", "OrderDate", "Order_Date", "Date", "order_date"]))
  let sd := parseDate (some (pick r
    ["Ship Date", "ship date", "ShipDate", "Ship_Date", "ship_date"]))
  let seg := jsOrDefault (pick r
    ["Customer Segment", "customer segment", "Segment", "segment", "Cust Segment"]) "Unknown"
  let st := jsOrDefault (pick r
    ["State or Province", "state or province", "State", "State/Province", "Province"]) ""
  let baseMargin := toNumber (some (pick r
    ["Product Base Margin", "product base margin", "Base Margin", "base margin"]))
  { __orderId := jsOrDefault (pick r
      ["Order ID", "Order Id", "OrderID", "order id", "order_id"]) ""
    __orderDate := od
    __shipDate := sd
    __sales := jsNumOrZero (toNumber (some (pick r
      ["Sales", "sales", "Total Sales", "total_sales"])))
    __profit := jsNumOrZero (toNumber (some (pick r
      ["Profit", "profit", "Total Profit", "total_profit"])))
    __discount := jsNumOrZero (toNumber (some (pick r
      ["Discount", "discount"])))
    __region := jsOrDefault (pick r ["Region", "region"]) "Unknown"
    __segment := seg
    __category := jsOrDefault (pick r ["Category", "category"]) "Unknown"
    __subCategory := jsOrDefault (pick r
      ["Sub-Category", "Sub Category", "sub-category", "sub category", "SubCategory"]) "Unknown"
    __shipMode := jsOrDefault (pick r ["Ship Mode", "ship mode", "ShipMode"]) "Unknown"
    __state := st
    __productContainer := jsOrDefault (pick r
      ["Product Container", "product container"]) "Unknown"
    __productName := jsOrDefault (pick r
      ["Product Name", "product name"]) "Unknown"
    __baseMargin := baseMargin }

/-- The ingestion boundary's keep test (`src/app/page.tsx:236`): a parsed
record survives iff it has more than one key (`Object.keys(r).length > 1`;
a "populated key" of the spec is a key present in the parsed object). -/
def ingestKeep (r : RawRecord) : Bool := decide (1 < (r.map Prod.fst).length)

/-- The ingestion filter applied to the parser's output before any row
reaches the core. -/
def ingestFilter (data : List RawRecord) : List RawRecord :=
  data.filter ingestKeep

/-- The Filter State: five categorical selectors (`"All"` = unconstrained)
plus the two year bounds (`src/app/page.tsx:218-224`). -/
structure FilterState where
  region : String
  segment : String
  category : String
  stateName : String
  shipMode : String
  yearFrom : Int
  yearTo : Int
deriving DecidableEq, Repr

/-- `r.__orderDate ? r.__orderDate.getFullYear() : NaN`, as an optional
year: `none` for a missing date or an Invalid Date (whose `getFullYear()`
is `NaN`). -/
def orderYear (d : Option JSDateV) : Option Int :=
  match d with
  | some (JSDateV.valid y _ _) => some y
  | _ => none

/-- The Filter Engine's predicate (`src/app/page.tsx:305-322`): the order
year must be finite and inside `min(from,to)..max(from,to)`, and every
selector is `"All"` or equal (exact string comparison) to the row's
field. -/
def rowPasses (fs : FilterState) (r : Row) : Bool :=
  let y1 := min fs.yearFrom fs.yearTo
  let y2 := max fs.yearFrom fs.yearTo
  match orderYear r.__orderDate with
  | none => false
  | some y =>
    if y < y1 ∨ y2 < y then false
    else if fs.region ≠ "All" ∧ r.__region ≠ fs.region then false
    else if fs.segment ≠ "All" ∧ r.__segment ≠ fs.segment then false
    else if fs.category ≠ "All" ∧ r.__category ≠ fs.category then false
    else if fs.stateName ≠ "All" ∧ r.__state ≠ fs.stateName then false
    else if fs.shipMode ≠ "All" ∧ r.__shipMode ≠ fs.shipMode then false
    else true

/-- The `filtered` memo (`src/app/page.tsx:305-322`). -/
def filteredRows (fs : FilterState) (rows : List Row) : List Row :=
  rows.filter (rowPasses fs)

/-- Insert `x` into `l` before the first element `b` with `le x b`; used to
implement a stable sort. -/
def insertOrdered (le : α → α → Bool) (x : α) : List α → List α
  | [] => [x]
  | b :: t => if le x b then x :: b :: t else b :: insertOrdered le x t

/-- Stable insertion sort.  ECMAScript requires `Array.prototype.sort` to be
stable; for a consistent comparator the stable sorted order is unique, so
this models the JS sort exactly (see `sortByLe_pairwise`,
`sortByLe_perm`, `sortByLe_pair_sublist`). -/
def sortByLe (le : α → α → Bool) : List α → List α
  | [] => []
  | x :: xs => insertOrdered le x (sortByLe le xs)

/-- The comparator `(a, b) => b[1] - a[1]` used by every grouped-sum view:
`a` may stay before `b` iff `b`'s value does not exceed `a`'s.  (ES treats
a `NaN` comparator result as `0`; a `NaN` value compares here as `0` —
the pipeline proves every sorted value finite, so the corner is inert.) -/
def entryLeDesc (a b : String × JSNum) : Bool := decide (qOf b.2 ≤ qOf a.2)

/-- `Array.from(m.entries()).sort((a, b) => b[1] - a[1])`. -/
def sortByValueDesc (items : List (String × JSNum)) : List (String × JSNum) :=
  sortByLe entryLeDesc items

/-- Code-unit lexicographic order on character lists — the JS default sort
comparator (after string conversion). -/
def charsLe : List Char → List Char → Bool
  | [], _ => true
  | _ :: _, [] => false
  | a :: resta, b :: restb =>
    if a.val < b.val then true
    else if b.val < a.val then false
    else charsLe resta restb

/-- JS default (string) sort comparator. -/
def strLeB (a b : String) : Bool := charsLe a.data b.data

/-- `m.get(k) || 0` for a map holding JS numbers: an absent key
(`undefined`) and a stored `NaN` (both falsy) give `0`. -/
def jsGetOr0 (o : Option JSNum) : JSNum :=
  match o with
  | some (some q) => some q
  | _ => some 0

/-- One iteration of a grouped-sum loop
(`m.set(k, (m.get(k) || 0) + v)`, as in `src/app/page.tsx:355-360`). -/
def groupStep (keyF : Row → String) (valF : Row → JSNum)
    (m : List (String × JSNum)) (r : Row) : List (String × JSNum) :=
  mapSet m (keyF r) (jsAdd (jsGetOr0 (mapGet m (keyF r))) (valF r))

/-- The accumulation `Map` of a grouped sum, in insertion order. -/
def groupFold (keyF : Row → String) (valF : Row → JSNum)
    (rows : List Row) : List (String × JSNum) :=
  rows.foldl (groupStep keyF valF) []

/-- `bySegment` (`src/app/page.tsx:355-360`): the sorted
`(label, value)` entries; the memo returns `labels`/`values` as the two
projections of this list. -/
def bySegmentItems (rows : List Row) : List (String × JSNum) :=
  sortByValueDesc (groupFold (fun r => r.__segment) (fun r => r.__sales) rows)

/-- `byCategory` (`src/app/page.tsx:362-367`). -/
def byCategoryItems (rows : List Row) : List (String × JSNum) :=
  sortByValueDesc (groupFold (fun r => r.__category) (fun r => r.__sales) rows)

/-- `salesByRegion` (`src/app/page.tsx:394-399`). -/
def salesByRegionItems (rows : List Row) : List (String × JSNum) :=
  sortByValueDesc (groupFold (fun r => r.__region) (fun r => r.__sales) rows)

/-- `profitBySubCategory` (`src/app/page.tsx:387-392`): sorted descending,
then `.slice(0, 10)`. -/
def profitBySubCategoryItems (rows : List Row) : List (String × JSNum) :=
  (sortByValueDesc
    (groupFold (fun r => r.__subCategory) (fun r => r.__profit) rows)).take 10

/-- `salesByProductContainer` (`src/app/page.tsx:402-407`): sorted
descending, then `.slice(0, 8)`. -/
def salesByProductContainerItems (rows : List Row) : List (String × JSNum) :=
  (sortByValueDesc
    (groupFold (fun r => r.__productContainer) (fun r => r.__sales) rows)).take 8

/-- The `orders` KPI (`src/app/page.tsx:327`):
`new Set(filtered.map(r => r.__orderId).filter(Boolean)).size ||
filtered.length`. -/
def kpiOrders (rows : List Row) : Nat :=
  let size :=
    ((rows.map (fun r => r.__orderId)).filter (fun s => s ≠ "")).dedup.length
  if size = 0 then rows.length else size

/-- One iteration of the `byMonth` loop (`src/app/page.tsx:341-353`): rows
with a `null` order date are skipped; the bucket accumulates sales and
profit (`m.get(key) || { sales: 0, profit: 0 }` — an object default, taken
only when the key is absent). -/
def monthStep (m : List (String × (JSNum × JSNum))) (r : Row) :
    List (String × (JSNum × JSNum)) :=
  match r.__orderDate with
  | none => m
  | some d =>
    let key := monthKey d
    let cur := (mapGet m key).getD (some 0, some 0)
    mapSet m key (jsAdd cur.1 r.__sales, jsAdd cur.2 r.__profit)

/-- The month-bucket `Map` of `byMonth`. -/
def monthFold (rows : List Row) : List (String × (JSNum × JSNum)) :=
  rows.foldl monthStep []

/-- `byMonth.x`: the bucket keys, sorted ascending
(`Array.from(m.keys()).sort()`). -/
def byMonthX (rows : List Row) : List String :=
  sortByLe strLeB ((monthFold rows).map Prod.fst)

/-- `byMonth.sales`: `keys.map(k => m.get(k)!.sales)` (the key is always
present, so the default is never taken). -/
def byMonthSales (rows : List Row) : List JSNum :=
  (byMonthX rows).map
    (fun k => ((mapGet (monthFold rows) k).getD (some 0, some 0)).1)

/-- `byMonth.profit`. -/
def byMonthProfit (rows : List Row) : List JSNum :=
  (byMonthX rows).map
    (fun k => ((mapGet (monthFold rows) k).getD (some 0, some 0)).2)

/-- `sumBy` inside the `insights` memo (`src/app/page.tsx:425-433`): a
grouped sum whose key is `keyFn(r) || "Unknown"`, sorted descending. -/
def sumBy (rows : List Row) (keyF : Row → String) (valF : Row → JSNum) :
    List (String × JSNum) :=
  sortByValueDesc
    (groupFold (fun r => jsOrDefault (keyF r) "Unknown") valF rows)

/-- One iteration of the best-month accumulation of `insights`
(`src/app/page.tsx:442-447`): monthly sales only, skipping rows with a
`null` order date. -/
def monthSalesStep (m : List (String × JSNum)) (r : Row) :
    List (String × JSNum) :=
  match r.__orderDate with
  | none => m
  | some d =>
    mapSet m (monthKey d) (jsAdd (jsGetOr0 (mapGet m (monthKey d))) r.__sales)

/-- The best-month accumulation `Map` of `insights`. -/
def monthSalesEntries (rows : List Row) : List (String × JSNum) :=
  rows.foldl monthSalesStep []

/-- The top-entry insights (`src/app/page.tsx:424-460`); `items[0]` of an
empty array is `undefined`, i.e. `none`. -/
structure Insights where
  topRegion : Option (String × JSNum)
  topCategory : Option (String × JSNum)
  topSegment : Option (String × JSNum)
  topState : Option (String × JSNum)
  bestSubcat : Option (String × JSNum)
  bestMonth : Option (String × JSNum)
deriving DecidableEq, Repr

/-- The `insights` memo's top entries. -/
def insightsOf (rows : List Row) : Insights where
  topRegion := (sumBy rows (fun r => r.__region) (fun r => r.__sales)).head?
  topCategory := (sumBy rows (fun r => r.__category) (fun r => r.__sales)).head?
  topSegment := (sumBy rows (fun r => r.__segment) (fun r => r.__sales)).head?
  topState := (sumBy rows (fun r => r.__state) (fun r => r.__sales)).head?
  bestSubcat :=
    (sumBy rows (fun r => r.__subCategory) (fun r => r.__profit)).head?
  bestMonth := (sortByValueDesc (monthSalesEntries rows)).head?

/-- `profitVsBaseMargin` (`src/app/page.tsx:410-421`): one
`(x, y, cat) = (baseMargin, profit, category)` point per filtered row,
kept when both coordinates are finite. -/
def profitVsBaseMargin (rows : List Row) : List (JSNum × JSNum × String) :=
  (rows.map (fun r => (r.__baseMargin, r.__profit, r.__category))).filter
    (fun p => jsFinite p.1 && jsFinite p.2.1)

/-- The normalized row collection (`rows` memo) as fed by the ingestion
boundary. -/
def pipelineRows (raws : List RawRecord) : List Row :=
  (ingestFilter raws).map rowOfRaw

/-- The filtered row collection produced by the whole pipeline. -/
def filteredPipeline (raws : List RawRecord) (fs : FilterState) : List Row :=
  filteredRows fs (pipelineRows raws)

/-- Specification-side exact sum: the sum of a metric over the rows having
a given key. -/
def metricSum (keyF : Row → String) (valF : Row → JSNum) (k : String)
    (rows : List Row) : ℚ :=
  ((rows.filter (fun r => keyF r = k)).map (fun r => qOf (valF r))).sum

/-! ## Concrete data used by witnesses -/

/-- The unconstrained Filter State with the default year bounds. -/
def fsAll : FilterState := ⟨"All", "All", "All", "All", "All", 2010, 2016⟩

/-- A concrete row with order id `"A1"`. -/
def rowA1West : Row :=
  ⟨"A1", none, none, some 1, some 1, some 0, "West", "Corporate",
    "Furniture", "Tables", "Regular Air", "CA", "Box", "Desk", some 0⟩

/-- A second concrete row with the same order id `"A1"`. -/
def rowA1East : Row :=
  ⟨"A1", none, none, some 2, some 1, some 0, "East", "Corporate",
    "Furniture", "Tables", "Regular Air", "NY", "Box", "Desk", some 0⟩

/-- A concrete raw record with an order date, sales and a segment (and no
state column). -/
def rawCorporate : RawRecord :=
  [("Order Date", some "2014-01-05"), ("Sales", some "10"),
    ("Customer Segment", some "Corporate")]

/-- A concrete raw record carrying only an order date and sales: its state
resolves to the empty string. -/
def rawNoState : RawRecord :=
  [("Order Date", some "2014-01-05"), ("Sales", some "10")]

/-! ## Specification-side statements of the claims -/

/-- Claim-side: a categorical selector is unconstrained (`"All"`) or equals
the row's field exactly (case-sensitive, no normalization). -/
def selectorOk (sel field : String) : Prop := sel = "All" ∨ field = sel

/-- Claim-side Filter Engine predicate (C1): the order-date year is defined
and lies in the normalized inclusive range, and every selector passes. -/
def filterSpec (fs : FilterState) (r : Row) : Prop :=
  (∃ y, orderYear r.__orderDate = some y ∧
    min fs.yearFrom fs.yearTo ≤ y ∧ y ≤ max fs.yearFrom fs.yearTo) ∧
  selectorOk fs.region r.__region ∧ selectorOk fs.segment r.__segment ∧
  selectorOk fs.category r.__category ∧ selectorOk fs.stateName r.__state ∧
  selectorOk fs.shipMode r.__shipMode

/-- Claim-side date-coercion rule (1): general (ISO) parsing. -/
def isoRule (t : String) : Option JSDateV :=
  if jsNewDateStr t = JSDateV.invalid then none else some (jsNewDateStr t)

/-- Claim-side date-coercion rule (2), amended: on a slash-containing
input, read the first three slash-separated components as month, day and
year, each required truthy (non-zero, parseable). -/
def slashRule (t : String) : Option JSDateV :=
  if strContains t '/' then
    let parts := splitOnChar '/' t
    let m := jsNumOfPart (parts.get? 0)
    let d := jsNumOfPart (parts.get? 1)
    let y := jsNumOfPart (parts.get? 2)
    if jsTruthyNum m ∧ jsTruthyNum d ∧ jsTruthyNum y then
      some (jsMakeDate y (jsSubQ m 1) d)
    else none
  else none

/-- Claim-side date coercion (C4, amended): absent or empty input gives
`null`; otherwise trim and try, in order, rule (1) `isoRule`, rule (2)
`slashRule`, rule (3) `dashDotStep` (magnitude disambiguation); `null`
when no rule succeeds. -/
def parseDateSpec (v : Option String) : Option JSDateV :=
  match v with
  | none => none
  | some s =>
    if s = "" then none
    else
      let t := trimStr s
      ((isoRule t).orElse (fun _ => slashRule t)).orElse
        (fun _ => dashDotStep t)

/-- Claim-side (C6, amended): the record key a given alias resolves to in
the case-insensitive pass — the last record key (later keys shadow
earlier ones) whose folded (lowercased, trimmed) form equals the folded
alias. -/
def ciKeyFor (r : RawRecord) (want : String) : Option String :=
  (r.map Prod.fst).reverse.find? (fun kk => lowerTrim kk == lowerTrim want)

/-- Claim-side (C6, amended): the value an alias yields in the
case-insensitive pass: its indexed key must be non-empty and hold a
non-null value that is non-empty after trimming, which is returned
trimmed. -/
def ciResolve (r : RawRecord) (want : String) : Option String :=
  match ciKeyFor r want with
  | some real =>
    if real ≠ "" then
      match mapGet r real with
      | some (some v) => if trimStr v ≠ "" then some (trimStr v) else none
      | _ => none
    else none
  | none => none

/-- Claim-side Field Resolver (C6, amended): the first alias with an exact
non-empty-after-trim hit; only if no alias matched, the first alias with a
case-insensitive hit through the folded-key index; else empty text. -/
def fieldResolverSpec (r : RawRecord) (keys : List String) : String :=
  match keys.findSome? (fun k => exactHit r k) with
  | some v => v
  | none =>
    match keys.findSome? (fun k => ciResolve r k) with
    | some v => v
    | none => ""

/-! ## Lemmas about the stable sort -/

theorem qAdd_eq (a b : ℚ) : qAdd a b = a + b := by
  conv_rhs => rw [← Rat.num_divInt_den a, ← Rat.num_divInt_den b]
  rw [Rat.divInt_add_divInt _ _ (Int.natCast_ne_zero.mpr a.den_nz)
    (Int.natCast_ne_zero.mpr b.den_nz)]
  rfl

theorem qSub_eq (a b : ℚ) : qSub a b = a - b := by
  rw [qSub, qAdd_eq, sub_eq_add_neg]

theorem insertOrdered_perm (le : α → α → Bool) (x : α) (l : List α) :
    List.Perm (insertOrdered le x l) (x :: l) := by
  induction l with
  | nil => simp [insertOrdered]
  | cons b t ih =>
    simp only [insertOrdered]
    split
    · exact List.Perm.refl _
    · exact (List.Perm.cons b ih).trans (List.Perm.swap x b t)

theorem sortByLe_perm (le : α → α → Bool) (l : List α) :
    List.Perm (sortByLe le l) l := by
  induction l with
  | nil => simp [sortByLe]
  | cons x xs ih =>
    exact (insertOrdered_perm le x (sortByLe le xs)).trans (ih.cons x)

theorem mem_sortByLe (le : α → α → Bool) (l : List α) (a : α) :
    a ∈ sortByLe le l ↔ a ∈ l :=
  (sortByLe_perm le l).mem_iff

theorem insertOrdered_pairwise (le : α → α → Bool)
    (htrans : ∀ a b c, le a b = true → le b c = true → le a c = true)
    (htot : ∀ a b, le a b || le b a) (x : α) (l : List α)
    (h : l.Pairwise (fun a b => le a b = true)) :
    (insertOrdered le x l).Pairwise (fun a b => le a b = true) := by
  induction l with
  | nil => simp [insertOrdered]
  | cons b t ih =>
    have ht := List.pairwise_cons.mp h
    simp only [insertOrdered]
    split
    · rename_i hxb
      refine List.Pairwise.cons ?_ h
      intro c hc
      rcases List.mem_cons.mp hc with rfl | hc
      · exact hxb
      · exact htrans x b c hxb (ht.1 c hc)
    · rename_i hxb
      have hbx : le b x = true := by
        have h2 := htot x b
        rcases Bool.or_eq_true_iff.mp h2 with h1 | h1
        · exact absurd h1 hxb
        · exact h1
      refine List.Pairwise.cons ?_ (ih ht.2)
      intro c hc
      have hmem := (insertOrdered_perm le x t).mem_iff.mp hc
      rcases List.mem_cons.mp hmem with rfl | hc2
      · exact hbx
      · exact ht.1 c hc2

theorem sortByLe_pairwise (le : α → α → Bool)
    (htrans : ∀ a b c, le a b = true → le b c = true → le a c = true)
    (htot : ∀ a b, le a b || le b a) (l : List α) :
    (sortByLe le l).Pairwise (fun a b => le a b = true) := by
  induction l with
  | nil => simp [sortByLe]
  | cons x xs ih => exact insertOrdered_pairwise le htrans htot x _ ih

theorem self_sublist_insertOrdered (le : α → α → Bool) (x : α) (l : List α) :
    List.Sublist l (insertOrdered le x l) := by
  induction l with
  | nil => simp [insertOrdered]
  | cons b t ih =>
    simp only [insertOrdered]
    split
    · exact List.sublist_cons_self x (b :: t)
    · exact List.Sublist.cons₂ b ih

theorem pair_sublist_insertOrdered (le : α → α → Bool) {a b : α} {l : List α}
    (hab : le a b = true) (hb : b ∈ l) :
    List.Sublist [a, b] (insertOrdered le a l) := by
  induction l with
  | nil => cases hb
  | cons c t ih =>
    simp only [insertOrdered]
    split
    · rename_i hac
      refine List.Sublist.cons₂ a ?_
      exact List.singleton_sublist.mpr hb
    · rename_i hac
      rcases List.mem_cons.mp hb with rfl | hb2
      · exact absurd hab hac
      · exact List.Sublist.cons c (ih hb2)

theorem sortByLe_pair_sublist (le : α → α → Bool) {a b : α} {l : List α}
    (hab : le a b = true) (h : List.Sublist [a, b] l) :
    List.Sublist [a, b] (sortByLe le l) := by
  induction l with
  | nil => cases h
  | cons x xs ih =>
    cases h with
    | cons _ h2 =>
      exact (ih h2).trans (self_sublist_insertOrdered le x (sortByLe le xs))
    | cons₂ _ h2 =>
      exact pair_sublist_insertOrdered le hab
        ((mem_sortByLe le xs b).mpr (List.singleton_sublist.mp h2))

theorem entryLeDesc_trans (a b c : String × JSNum)
    (h1 : entryLeDesc a b = true) (h2 : entryLeDesc b c = true) :
    entryLeDesc a c = true := by
  simp only [entryLeDesc, decide_eq_true_eq] at *
  exact h2.trans h1

theorem entryLeDesc_total (a b : String × JSNum) :
    entryLeDesc a b || entryLeDesc b a := by
  simp only [entryLeDesc, Bool.or_eq_true, decide_eq_true_eq]
  exact (le_total (qOf b.2) (qOf a.2))

/-- The emitted entries of each grouped-sum view are sorted descending by
value. -/
theorem sortByValueDesc_pairwise (l : List (String × JSNum)) :
    (sortByValueDesc l).Pairwise (fun a b => qOf b.2 ≤ qOf a.2) := by
  have h := sortByLe_pairwise entryLeDesc entryLeDesc_trans entryLeDesc_total l
  refine h.imp ?_
  intro a b hab
  simpa [entryLeDesc] using hab

/-- The head of a descending-sorted entry list dominates every entry. -/
theorem sortByValueDesc_head_max {l : List (String × JSNum)}
    {e : String × JSNum} (h : (sortByValueDesc l).head? = some e) :
    ∀ e' ∈ l, qOf e'.2 ≤ qOf e.2 := by
  intro e' he'
  have hmem : e' ∈ sortByValueDesc l :=
    (mem_sortByLe entryLeDesc l e').mpr he'
  have hp := sortByValueDesc_pairwise l
  cases hs : sortByValueDesc l with
  | nil => rw [hs] at hmem; cases hmem
  | cons h0 t =>
    rw [hs] at h hmem hp
    cases h
    rcases List.mem_cons.mp hmem with rfl | hmem2
    · exact le_refl _
    · exact List.rel_of_pairwise_cons hp hmem2

/-! ## Lemmas about the insertion-ordered map -/

theorem mapGet_mapSet {κ β : Type} [DecidableEq κ]
    (m : List (κ × β)) (k : κ) (v : β) (k2 : κ) :
    mapGet (mapSet m k v) k2 = if k = k2 then some v else mapGet m k2 := by
  induction m with
  | nil => simp [mapSet, mapGet]
  | cons p t ih =>
    obtain ⟨k0, v0⟩ := p
    by_cases h0 : k0 = k
    · subst h0
      by_cases h2 : k0 = k2 <;> simp [mapSet, mapGet, h2]
    · by_cases h2 : k0 = k2
      · have hne : ¬(k = k2) := fun hh => h0 (h2.trans hh.symm)
        have hne2 : ¬(k2 = k) := fun hh => hne hh.symm
        simp [mapSet, mapGet, h0, h2, hne, hne2]
      · simp [mapSet, mapGet, h0, h2, ih]

theorem keys_mapSet {κ β : Type} [DecidableEq κ]
    (m : List (κ × β)) (k : κ) (v : β) :
    (mapSet m k v).map Prod.fst =
      if k ∈ m.map Prod.fst then m.map Prod.fst
      else m.map Prod.fst ++ [k] := by
  induction m with
  | nil => simp [mapSet]
  | cons p t ih =>
    obtain ⟨k0, v0⟩ := p
    by_cases h0 : k0 = k
    · subst h0
      simp [mapSet]
    · simp only [mapSet, if_neg h0, List.map_cons, ih]
      by_cases hk : k ∈ t.map Prod.fst
      · simp [hk, List.mem_cons, Ne.symm h0]
      · simp [hk, List.mem_cons, Ne.symm h0]

theorem nodupKeys_mapSet {κ β : Type} [DecidableEq κ]
    (m : List (κ × β)) (k : κ) (v : β)
    (h : (m.map Prod.fst).Nodup) : ((mapSet m k v).map Prod.fst).Nodup := by
  rw [keys_mapSet]
  by_cases hk : k ∈ m.map Prod.fst
  · simpa [hk] using h
  · simp [hk, List.nodup_append, h, List.disjoint_singleton]

theorem mapGet_eq_some_of_mem {κ β : Type} [DecidableEq κ]
    {m : List (κ × β)} {k : κ} {v : β}
    (hnd : (m.map Prod.fst).Nodup) (hmem : (k, v) ∈ m) :
    mapGet m k = some v := by
  induction m with
  | nil => cases hmem
  | cons p t ih =>
    obtain ⟨k0, v0⟩ := p
    simp only [List.map_cons, List.nodup_cons] at hnd
    rcases List.mem_cons.mp hmem with heq | hmem2
    · rw [show k0 = k from congrArg Prod.fst heq.symm]
      simp [mapGet, show v0 = v from congrArg Prod.snd heq.symm]
    · have hne : k0 ≠ k := by
        rintro rfl
        exact hnd.1 (List.mem_map.mpr ⟨(k0, v), hmem2, rfl⟩)
      simp only [mapGet, if_neg hne]
      exact ih hnd.2 hmem2

theorem mem_of_mapGet_eq_some {κ β : Type} [DecidableEq κ]
    {m : List (κ × β)} {k : κ} {v : β} (h : mapGet m k = some v) :
    (k, v) ∈ m := by
  induction m with
  | nil => cases h
  | cons p t ih =>
    obtain ⟨k0, v0⟩ := p
    by_cases h0 : k0 = k
    · subst h0
      have hv : v0 = v := by simpa [mapGet] using h
      subst hv
      exact List.mem_cons_self _ _
    · simp only [mapGet, if_neg h0] at h
      exact List.mem_cons_of_mem _ (ih h)

theorem mapGet_eq_none_iff {κ β : Type} [DecidableEq κ]
    (m : List (κ × β)) (k : κ) :
    mapGet m k = none ↔ k ∉ m.map Prod.fst := by
  induction m with
  | nil => simp [mapGet]
  | cons p t ih =>
    obtain ⟨k0, v0⟩ := p
    by_cases h0 : k0 = k
    · subst h0
      simp [mapGet]
    · simp [mapGet, if_neg h0, ih, Ne.symm h0]

theorem mem_mapSet {κ β : Type} [DecidableEq κ]
    {m : List (κ × β)} {k : κ} {v : β} {p : κ × β}
    (h : p ∈ mapSet m k v) : p = (k, v) ∨ p ∈ m := by
  induction m with
  | nil =>
    left
    simpa [mapSet] using h
  | cons q t ih =>
    obtain ⟨k0, v0⟩ := q
    by_cases h0 : k0 = k
    · subst h0
      simp only [mapSet, if_true, eq_self_iff_true, List.mem_cons] at h
      rcases h with h | h
      · exact Or.inl h
      · exact Or.inr (List.mem_cons_of_mem _ h)
    · simp only [mapSet, if_neg h0, List.mem_cons] at h
      rcases h with h | h
      · exact Or.inr (h ▸ List.mem_cons_self _ _)
      · rcases ih h with h2 | h2
        · exact Or.inl h2
        · exact Or.inr (List.mem_cons_of_mem _ h2)

/-- Nodup keys are preserved by any fold whose step leaves the map alone or
performs a `mapSet`. -/
theorem nodupKeys_foldl {β γ : Type}
    (step : List (String × β) → γ → List (String × β))
    (hstep : ∀ m r, (m.map Prod.fst).Nodup → ((step m r).map Prod.fst).Nodup)
    (rows : List γ) :
    ∀ m : List (String × β), (m.map Prod.fst).Nodup →
      ((rows.foldl step m).map Prod.fst).Nodup := by
  induction rows with
  | nil => intro m hm; simpa using hm
  | cons r rest ih =>
    intro m hm
    exact ih (step m r) (hstep m r hm)

/-! ## Lemmas about the grouped-sum accumulation -/

theorem jsAdd_some (x y : ℚ) : jsAdd (some x) (some y) = some (x + y) := by
  simp [jsAdd, qAdd_eq]

theorem jsGetOr0_eq_some (o : Option JSNum) :
    jsGetOr0 o = some (qOf (jsGetOr0 o)) := by
  rcases o with _ | v
  · rfl
  · rcases v with _ | q <;> rfl

theorem toNumber_isSome (v : Option String) : (toNumber v).isSome := by
  rcases v with _ | s
  · rfl
  · simp only [toNumber]
    rcases jsStrNumber (stripNumJunk s) with _ | q <;> rfl

theorem jsNumOrZero_isSome (n : JSNum) : (jsNumOrZero n).isSome := by
  rcases n with _ | q <;> rfl

theorem groupFold_keys_mem (keyF : Row → String) (valF : Row → JSNum)
    (rows : List Row) :
    ∀ (m : List (String × JSNum)) (k : String),
      (k ∈ (rows.foldl (groupStep keyF valF) m).map Prod.fst ↔
        k ∈ m.map Prod.fst ∨ ∃ r ∈ rows, keyF r = k) := by
  induction rows with
  | nil => intro m k; simp
  | cons r rest ih =>
    intro m k
    have hstep : k ∈ (groupStep keyF valF m r).map Prod.fst ↔
        k ∈ m.map Prod.fst ∨ keyF r = k := by
      simp only [groupStep, keys_mapSet]
      by_cases hk : keyF r ∈ m.map Prod.fst
      · rw [if_pos hk]
        constructor
        · exact Or.inl
        · rintro (h | h)
          · exact h
          · exact h ▸ hk
      · rw [if_neg hk, List.mem_append, List.mem_singleton]
        constructor
        · rintro (h | h)
          · exact Or.inl h
          · exact Or.inr h.symm
        · rintro (h | h)
          · exact Or.inl h
          · exact Or.inr h.symm
    rw [List.foldl_cons, ih (groupStep keyF valF m r) k, hstep]
    constructor
    · rintro ((h | h) | ⟨r2, hr2, hk2⟩)
      · exact Or.inl h
      · exact Or.inr ⟨r, List.mem_cons_self _ _, h⟩
      · exact Or.inr ⟨r2, List.mem_cons_of_mem _ hr2, hk2⟩
    · rintro (h | ⟨r2, hr2, hk2⟩)
      · exact Or.inl (Or.inl h)
      · rcases List.mem_cons.mp hr2 with rfl | hr3
        · exact Or.inl (Or.inr hk2)
        · exact Or.inr ⟨r2, hr3, hk2⟩

theorem groupFold_keys_nodup (keyF : Row → String) (valF : Row → JSNum)
    (rows : List Row) :
    ((groupFold keyF valF rows).map Prod.fst).Nodup :=
  nodupKeys_foldl (groupStep keyF valF)
    (fun m r hm => nodupKeys_mapSet m _ _ hm) rows [] (by simp)

theorem groupFold_off_key (keyF : Row → String) (valF : Row → JSNum)
    (rows : List Row) :
    ∀ (m : List (String × JSNum)) (k : String),
      (∀ r ∈ rows, keyF r ≠ k) →
      mapGet (rows.foldl (groupStep keyF valF) m) k = mapGet m k := by
  induction rows with
  | nil => intro m k _; rfl
  | cons r rest ih =>
    intro m k h
    have hr : keyF r ≠ k := h r (List.mem_cons_self _ _)
    rw [List.foldl_cons,
      ih (groupStep keyF valF m r) k (fun r2 hr2 => h r2 (List.mem_cons_of_mem _ hr2))]
    simp [groupStep, mapGet_mapSet, hr]

theorem metricSum_cons_pos (keyF : Row → String) (valF : Row → JSNum)
    (k : String) (r : Row) (rest : List Row) (h : keyF r = k) :
    metricSum keyF valF k (r :: rest) =
      qOf (valF r) + metricSum keyF valF k rest := by
  simp [metricSum, List.filter_cons, h]

theorem metricSum_cons_neg (keyF : Row → String) (valF : Row → JSNum)
    (k : String) (r : Row) (rest : List Row) (h : keyF r ≠ k) :
    metricSum keyF valF k (r :: rest) = metricSum keyF valF k rest := by
  simp [metricSum, List.filter_cons, h]

theorem metricSum_eq_zero (keyF : Row → String) (valF : Row → JSNum)
    (k : String) (rows : List Row) (h : ∀ r ∈ rows, keyF r ≠ k) :
    metricSum keyF valF k rows = 0 := by
  have : rows.filter (fun r => keyF r = k) = [] := by
    rw [List.filter_eq_nil_iff]
    intro r hr
    simpa using h r hr
  simp [metricSum, this]

theorem groupFold_on_key (keyF : Row → String) (valF : Row → JSNum)
    (rows : List Row) :
    ∀ (m : List (String × JSNum)) (k : String),
      (∀ r ∈ rows, (valF r).isSome) →
      (∃ r ∈ rows, keyF r = k) →
      mapGet (rows.foldl (groupStep keyF valF) m) k =
        some (some (qOf (jsGetOr0 (mapGet m k)) +
          metricSum keyF valF k rows)) := by
  induction rows with
  | nil =>
    intro m k _ hk
    simp at hk
  | cons r rest ih =>
    intro m k hv hk
    have hvr : ∀ r2 ∈ rest, (valF r2).isSome :=
      fun r2 h2 => hv r2 (List.mem_cons_of_mem _ h2)
    by_cases hr : keyF r = k
    · obtain ⟨qv, hqv⟩ := Option.isSome_iff_exists.mp (hv r (List.mem_cons_self _ _))
      have hm2 : mapGet (groupStep keyF valF m r) k =
          some (some (qOf (jsGetOr0 (mapGet m k)) + qv)) := by
        rw [groupStep, hr, mapGet_mapSet, if_pos rfl, hqv,
          jsGetOr0_eq_some (mapGet m k), jsAdd_some]
        simp [qOf]
      rw [List.foldl_cons, metricSum_cons_pos keyF valF k r rest hr, hqv]
      by_cases hrest : ∃ r2 ∈ rest, keyF r2 = k
      · rw [ih (groupStep keyF valF m r) k hvr hrest, hm2]
        simp [jsGetOr0, qOf, add_assoc]
      · push_neg at hrest
        rw [groupFold_off_key keyF valF rest _ k hrest, hm2,
          metricSum_eq_zero keyF valF k rest hrest]
        simp [qOf]
    · have hk2 : ∃ r2 ∈ rest, keyF r2 = k := by
        rcases hk with ⟨r2, hr2, hkey⟩
        rcases List.mem_cons.mp hr2 with rfl | hr3
        · exact absurd hkey hr
        · exact ⟨r2, hr3, hkey⟩
      have hm2 : mapGet (groupStep keyF valF m r) k = mapGet m k := by
        simp [groupStep, mapGet_mapSet, hr]
      rw [List.foldl_cons, ih (groupStep keyF valF m r) k hvr hk2, hm2,
        metricSum_cons_neg keyF valF k r rest hr]

/-- Every entry of the accumulation `Map` of a grouped sum carries exactly
the sum of the metric over the rows having that key. -/
theorem groupFold_value (keyF : Row → String) (valF : Row → JSNum)
    (rows : List Row) (hv : ∀ r ∈ rows, (valF r).isSome)
    {k : String} {v : JSNum} (hmem : (k, v) ∈ groupFold keyF valF rows) :
    v = some (metricSum keyF valF k rows) := by
  have hget : mapGet (groupFold keyF valF rows) k = some v :=
    mapGet_eq_some_of_mem (groupFold_keys_nodup keyF valF rows) hmem
  have hkey : k ∈ (groupFold keyF valF rows).map Prod.fst :=
    List.mem_map.mpr ⟨(k, v), hmem, rfl⟩
  have hex : ∃ r ∈ rows, keyF r = k := by
    rcases (groupFold_keys_mem keyF valF rows [] k).mp hkey with h | h
    · simp at h
    · exact h
  have := groupFold_on_key keyF valF rows [] k hv hex
  rw [groupFold] at hget
  rw [hget] at this
  have hv2 := Option.some.inj this
  rw [hv2]
  simp [mapGet, jsGetOr0, qOf]

/-- The keys of a grouped sum are exactly the key values occurring among
the rows. -/
theorem groupFold_keys_iff (keyF : Row → String) (valF : Row → JSNum)
    (rows : List Row) (k : String) :
    k ∈ (groupFold keyF valF rows).map Prod.fst ↔ ∃ r ∈ rows, keyF r = k := by
  rw [groupFold, groupFold_keys_mem keyF valF rows [] k]
  simp

/-- Grouping depends on the key function only through its values on the
rows. -/
theorem groupFold_congr (keyF1 keyF2 : Row → String) (valF : Row → JSNum)
    (rows : List Row) (h : ∀ r ∈ rows, keyF1 r = keyF2 r) :
    groupFold keyF1 valF rows = groupFold keyF2 valF rows := by
  have main : ∀ (rows2 : List Row), (∀ r ∈ rows2, keyF1 r = keyF2 r) →
      ∀ m, rows2.foldl (groupStep keyF1 valF) m =
        rows2.foldl (groupStep keyF2 valF) m := by
    intro rows2
    induction rows2 with
    | nil => intro _ m; rfl
    | cons r rest ih =>
      intro hh m
      rw [List.foldl_cons, List.foldl_cons,
        show groupStep keyF1 valF m r = groupStep keyF2 valF m r by
          rw [groupStep, groupStep, hh r (List.mem_cons_self _ _)]]
      exact ih (fun r2 h2 => hh r2 (List.mem_cons_of_mem _ h2)) _
  exact main rows h []

/-! ## Projection of the month pair-map onto its sales component -/

theorem jsAdd_isSome {a b : JSNum} (ha : a.isSome) (hb : b.isSome) :
    (jsAdd a b).isSome := by
  rcases a with _ | x
  · cases ha
  · rcases b with _ | y
    · cases hb
    · rfl

theorem mapGet_map_snd {κ β γ : Type} [DecidableEq κ] (f : β → γ)
    (m : List (κ × β)) (k : κ) :
    mapGet (m.map (fun p => (p.1, f p.2))) k = (mapGet m k).map f := by
  induction m with
  | nil => simp [mapGet]
  | cons p t ih =>
    obtain ⟨k0, v0⟩ := p
    by_cases h0 : k0 = k
    · subst h0
      simp [mapGet]
    · simp [mapGet, h0, ih]

theorem mapSet_map_snd {κ β γ : Type} [DecidableEq κ] (f : β → γ)
    (m : List (κ × β)) (k : κ) (v : β) :
    (mapSet m k v).map (fun p => (p.1, f p.2)) =
      mapSet (m.map (fun p => (p.1, f p.2))) k (f v) := by
  induction m with
  | nil => simp [mapSet]
  | cons p t ih =>
    obtain ⟨k0, v0⟩ := p
    by_cases h0 : k0 = k
    · subst h0
      simp [mapSet]
    · simp [mapSet, h0, ih]

/-- The sales component looked up in the `byMonth` pair map agrees with the
`m.get(k) || 0` lookup of the `insights` month map, for well-formed
(finite-sales) buckets. -/
theorem monthBase_eq (m2 : List (String × (JSNum × JSNum))) (key : String)
    (hm : ∀ p ∈ m2, (p.2.1 : JSNum).isSome) :
    jsGetOr0 ((mapGet m2 key).map Prod.fst) =
      ((mapGet m2 key).getD (some 0, some 0)).1 := by
  cases hg : mapGet m2 key with
  | none => rfl
  | some p =>
    obtain ⟨q, hq⟩ := Option.isSome_iff_exists.mp
      (hm (key, p) (mem_of_mapGet_eq_some hg))
    simp only at hq
    simp [jsGetOr0, hq]

/-- `insights`' month map is the sales projection of `byMonth`'s pair
map. -/
theorem monthSales_proj (rows : List Row)
    (hws : ∀ r ∈ rows, (r.__sales).isSome) :
    ∀ m2 : List (String × (JSNum × JSNum)),
      (∀ p ∈ m2, (p.2.1 : JSNum).isSome) →
      rows.foldl monthSalesStep (m2.map (fun p => (p.1, p.2.1))) =
        (rows.foldl monthStep m2).map (fun p => (p.1, p.2.1)) := by
  induction rows with
  | nil => intro m2 _; rfl
  | cons r rest ih =>
    intro m2 hm
    have hws2 : ∀ r2 ∈ rest, (r2.__sales).isSome :=
      fun r2 h2 => hws r2 (List.mem_cons_of_mem _ h2)
    rw [List.foldl_cons, List.foldl_cons]
    cases hod : r.__orderDate with
    | none =>
      rw [show monthSalesStep (m2.map (fun p => (p.1, p.2.1))) r
          = m2.map (fun p => (p.1, p.2.1)) by simp [monthSalesStep, hod],
        show monthStep m2 r = m2 by simp [monthStep, hod]]
      exact ih hws2 m2 hm
    | some d =>
      have hcur : ((mapGet m2 (monthKey d)).getD (some 0, some 0)).1.isSome := by
        cases hg : mapGet m2 (monthKey d) with
        | none => rfl
        | some p => simpa using hm (monthKey d, p) (mem_of_mapGet_eq_some hg)
      have hsales : (r.__sales).isSome := hws r (List.mem_cons_self _ _)
      have hstep : monthSalesStep (m2.map (fun p => (p.1, p.2.1))) r
          = (monthStep m2 r).map (fun p => (p.1, p.2.1)) := by
        rw [monthSalesStep, monthStep]
        simp only [hod]
        rw [mapGet_map_snd, monthBase_eq m2 (monthKey d) hm, mapSet_map_snd]
      rw [hstep]
      refine ih hws2 (monthStep m2 r) ?_
      intro p hp
      rw [monthStep] at hp
      simp only [hod] at hp
      rcases mem_mapSet hp with hpe | hpm
      · rw [hpe]
        exact jsAdd_isSome hcur hsales
      · exact hm p hpm

/-- The two month maps have the same entries up to the sales projection. -/
theorem monthSalesEntries_eq (rows : List Row)
    (hws : ∀ r ∈ rows, (r.__sales).isSome) :
    monthSalesEntries rows = (monthFold rows).map (fun p => (p.1, p.2.1)) := by
  have := monthSales_proj rows hws [] (by simp)
  simpa [monthSalesEntries, monthFold] using this

theorem monthFold_keys_nodup (rows : List Row) :
    ((monthFold rows).map Prod.fst).Nodup := by
  refine nodupKeys_foldl monthStep ?_ rows [] (by simp)
  intro m r hm
  rw [monthStep]
  cases r.__orderDate with
  | none => exact hm
  | some d => exact nodupKeys_mapSet m _ _ hm

/-! ## Well-formedness of pipeline rows -/

theorem jsOrDefault_ne_empty (s d : String) (hd : d ≠ "") :
    jsOrDefault s d ≠ "" := by
  rw [jsOrDefault]
  split
  · exact hd
  · assumption

theorem rowOfRaw_sales_isSome (raw : RawRecord) :
    ((rowOfRaw raw).__sales).isSome := jsNumOrZero_isSome _

theorem rowOfRaw_profit_isSome (raw : RawRecord) :
    ((rowOfRaw raw).__profit).isSome := jsNumOrZero_isSome _

theorem rowOfRaw_baseMargin_isSome (raw : RawRecord) :
    ((rowOfRaw raw).__baseMargin).isSome := by
  have h : (rowOfRaw raw).__baseMargin = toNumber (some (pick raw
      ["Product Base Margin", "product base margin", "Base Margin",
        "base margin"])) := rfl
  rw [h]
  exact toNumber_isSome _

theorem rowOfRaw_region_ne (raw : RawRecord) : (rowOfRaw raw).__region ≠ "" :=
  jsOrDefault_ne_empty _ _ (by decide)

theorem rowOfRaw_segment_ne (raw : RawRecord) : (rowOfRaw raw).__segment ≠ "" :=
  jsOrDefault_ne_empty _ _ (by decide)

theorem rowOfRaw_category_ne (raw : RawRecord) :
    (rowOfRaw raw).__category ≠ "" := jsOrDefault_ne_empty _ _ (by decide)

theorem rowOfRaw_subCategory_ne (raw : RawRecord) :
    (rowOfRaw raw).__subCategory ≠ "" := jsOrDefault_ne_empty _ _ (by decide)

theorem mem_filteredPipeline {raws : List RawRecord} {fs : FilterState}
    {r : Row} (h : r ∈ filteredPipeline raws fs) : ∃ raw, r = rowOfRaw raw := by
  have h2 : r ∈ pipelineRows raws := List.mem_of_mem_filter h
  rcases List.mem_map.mp h2 with ⟨raw, _, heq⟩
  exact ⟨raw, heq.symm⟩

theorem filteredPipeline_sales_isSome (raws : List RawRecord)
    (fs : FilterState) : ∀ r ∈ filteredPipeline raws fs, (r.__sales).isSome := by
  intro r hr
  rcases mem_filteredPipeline hr with ⟨raw, rfl⟩
  exact rowOfRaw_sales_isSome raw

theorem filteredPipeline_profit_isSome (raws : List RawRecord)
    (fs : FilterState) : ∀ r ∈ filteredPipeline raws fs, (r.__profit).isSome := by
  intro r hr
  rcases mem_filteredPipeline hr with ⟨raw, rfl⟩
  exact rowOfRaw_profit_isSome raw

/-! ## Claim theorems -/

/-- C1 (confirmed):  For every Canonical Row and Filter State, the
Filter Engine passes the row iff its order-date year is defined and lies
within the normalized inclusive year range `min(from,to)..max(from,to)`
and each of the five categorical selectors (region, segment, category,
state, ship mode) is either unconstrained or exactly equals, by
case-sensitive string equality, the row's corresponding field; in
particular a row whose order date is null is excluded under every Filter
State. -/
theorem c1_filter_engine (fs : FilterState) (r : Row) :
    (rowPasses fs r = true ↔ filterSpec fs r) ∧
    (r.__orderDate = none → rowPasses fs r = false) := by
  constructor
  · rw [rowPasses, filterSpec]
    cases horder : orderYear r.__orderDate with
    | none =>
      simp only [horder]
      constructor
      · intro h; cases h
      · rintro ⟨⟨y', hy', _, _⟩, _⟩
        cases hy'
    | some y =>
      simp only [horder]
      split_ifs with h1 h2 h3 h4 h5 h6
      · simp only [false_iff]
        rintro ⟨⟨y', hy', hlo, hhi⟩, _⟩
        obtain rfl : y = y' := Option.some.inj hy'
        rcases h1 with h | h
        · exact absurd (lt_of_lt_of_le h hlo) (lt_irrefl y)
        · exact absurd (lt_of_le_of_lt hhi h) (lt_irrefl y)
      · simp only [false_iff]
        rintro ⟨_, hreg, _⟩
        rcases hreg with h | h
        · exact h2.1 h
        · exact h2.2 h
      · simp only [false_iff]
        rintro ⟨_, _, hseg, _⟩
        rcases hseg with h | h
        · exact h3.1 h
        · exact h3.2 h
      · simp only [false_iff]
        rintro ⟨_, _, _, hcat, _⟩
        rcases hcat with h | h
        · exact h4.1 h
        · exact h4.2 h
      · simp only [false_iff]
        rintro ⟨_, _, _, _, hst, _⟩
        rcases hst with h | h
        · exact h5.1 h
        · exact h5.2 h
      · simp only [false_iff]
        rintro ⟨_, _, _, _, _, hsm⟩
        rcases hsm with h | h
        · exact h6.1 h
        · exact h6.2 h
      · simp only [true_iff]
        push_neg at h1
        refine ⟨⟨y, rfl, h1.1, h1.2⟩, ?_, ?_, ?_, ?_, ?_⟩
          <;> rw [selectorOk]
        · rcases not_and_or.mp h2 with h | h
          · exact Or.inl (not_not.mp h)
          · exact Or.inr (not_not.mp h)
        · rcases not_and_or.mp h3 with h | h
          · exact Or.inl (not_not.mp h)
          · exact Or.inr (not_not.mp h)
        · rcases not_and_or.mp h4 with h | h
          · exact Or.inl (not_not.mp h)
          · exact Or.inr (not_not.mp h)
        · rcases not_and_or.mp h5 with h | h
          · exact Or.inl (not_not.mp h)
          · exact Or.inr (not_not.mp h)
        · rcases not_and_or.mp h6 with h | h
          · exact Or.inl (not_not.mp h)
          · exact Or.inr (not_not.mp h)
  · intro h
    rw [rowPasses]
    simp [orderYear, h]

/-- Witness for C1 at a concrete Filter State and a concrete row with a
null order date. -/
theorem c1_filter_engine_witness :
    rowPasses ⟨"All", "All", "All", "All", "All", 2010, 2016⟩
      ⟨"id1", none, none, some 1, some 1, some 0, "West", "Corporate",
        "Furniture", "Tables", "Regular Air", "California", "Box",
        "Desk", some 0⟩ = false :=
  (c1_filter_engine ⟨"All", "All", "All", "All", "All", 2010, 2016⟩
    ⟨"id1", none, none, some 1, some 1, some 0, "West", "Corporate",
     "Furniture", "Tables", "Regular Air", "California", "Box",
     "Desk", some 0⟩).2 rfl

/-- C8 (confirmed):  For every row collection, categorical selectors
and pair of year bounds, filtering with bounds `(a, b)` and with bounds
`(b, a)` yields the same filtered collection: the engine normalizes the
range to `min(a,b)..max(a,b)`. -/
theorem c8_year_range_order_independent (rows : List Row)
    (reg seg cat st sm : String) (a b : Int) :
    filteredRows ⟨reg, seg, cat, st, sm, a, b⟩ rows =
      filteredRows ⟨reg, seg, cat, st, sm, b, a⟩ rows := by
  rw [filteredRows, filteredRows]
  apply List.filter_congr
  intro r _
  rw [rowPasses, rowPasses]
  rw [show min a b = min b a from min_comm a b,
    show max a b = max b a from max_comm a b]

/-- C4 (corrected):  Date coercion tries, in order: (1) general ISO
parsing; (2) the slash rule — amended: it applies to any slash-containing
input, reading the first three slash-separated components as month, day,
year, all three required truthy; (3) dash- or dot-delimited 3-part
parsing disambiguated by magnitude (first component `> 12` ⇒ first is the
day, else first is the month; the third is the year, two-digit years
reading as 1900-based), so `"15-03-2015"` is March 15 2015; it returns
null when the input is absent or blank or no rule fires. -/
theorem c4_date_coercion :
    (∀ v, parseDate v = parseDateSpec v) ∧
    parseDate none = none ∧
    parseDate (some "") = none ∧
    parseDate (some "   ") = none ∧
    parseDate (some "hello") = none ∧
    parseDate (some "15-03-2015") = some (JSDateV.valid 2015 2 15) ∧
    parseDate (some "15.03.2015") = some (JSDateV.valid 2015 2 15) ∧
    parseDate (some "2015-03-15") = some (JSDateV.valid 2015 2 15) ∧
    parseDate (some "02/03/2015") = some (JSDateV.valid 2015 1 3) := by
  refine ⟨?_, by decide, by decide, by decide, by decide, by decide,
    by decide, by decide, by decide⟩
  intro v
  rcases v with _ | s
  · rfl
  · simp only [parseDate, parseDateSpec, isoRule, slashRule]
    split_ifs <;> simp_all [Option.orElse]

/-- Counterexample to C4 as stated: `"1/2/3/4"` is not slash-delimited
`MM/DD/YYYY` (it has four components), does not parse as ISO, and contains
no dash or dot, so the claim's rules (1)-(3) do not apply and its fallback
clause demands `null`; the code instead destructures the first three
slash components and returns `new Date(3, 0, 2)` — January 2, 1903 after
the two-digit-year rule — which is not `null`. -/
theorem c4_counterexample :
    parseDate (some "1/2/3/4") = some (JSDateV.valid 1903 0 2) ∧
    parseDate (some "1/2/3/4") ≠ none := by decide

theorem stripNumJunk_idem (s : String) :
    stripNumJunk (stripNumJunk s) = stripNumJunk s := by
  simp [stripNumJunk, List.filter_filter]

/-- C5 (confirmed):  Numeric coercion strips `$`, `,`, `%` and
whitespace, parses the remainder as a decimal number, and returns `0` when
the remainder does not parse to a finite number or the input is absent; it
never raises; `"$1,234.50"` ↦ `1234.5`, `"12%"` ↦ `12`, `""` and `null` ↦
`0`, `"abc"` ↦ `0`. -/
theorem c5_numeric_coercion :
    toNumber none = some 0 ∧
    toNumber (some "") = some 0 ∧
    toNumber (some "$1,234.50") = some (1234.5 : ℚ) ∧
    toNumber (some "12%") = some 12 ∧
    toNumber (some "abc") = some 0 ∧
    (∀ s, toNumber (some s) = toNumber (some (stripNumJunk s))) ∧
    (∀ s, jsStrNumber (stripNumJunk s) = none → toNumber (some s) = some 0) ∧
    (∀ s q, jsStrNumber (stripNumJunk s) = some q →
      toNumber (some s) = some q) := by
  refine ⟨by decide, by decide, ?_, by decide, by decide, ?_, ?_, ?_⟩
  · rw [show (1234.5 : ℚ) = Rat.divInt 2469 2 from by
      rw [Rat.divInt_eq_div]; norm_num]
    decide
  · intro s
    simp only [toNumber, stripNumJunk_idem]
  · intro s h
    simp [toNumber, h]
  · intro s q h
    simp [toNumber, h]

/-- Witness for C5's universally quantified clause at the concrete
unparseable input `"abc"`. -/
theorem c5_numeric_coercion_witness : toNumber (some "abc") = some 0 :=
  c5_numeric_coercion.2.2.2.2.2.2.1 "abc" (by decide)

/-- C7 (confirmed):  The orderCount KPI equals the number of distinct
non-empty order identifiers among the filtered rows, and when no
identifier is non-empty it falls back to the total filtered row count. -/
theorem c7_order_count (rows : List Row) :
    ((∀ r ∈ rows, r.__orderId = "") → kpiOrders rows = rows.length) ∧
    ((∃ r ∈ rows, r.__orderId ≠ "") →
      kpiOrders rows =
        ((rows.map (fun r => r.__orderId)).filter
          (fun s => s ≠ "")).toFinset.card) := by
  constructor
  · intro h
    have hnil : (rows.map (fun r => r.__orderId)).filter (fun s => s ≠ "")
        = [] := by
      rw [List.filter_eq_nil_iff]
      intro s hs
      rcases List.mem_map.mp hs with ⟨r, hr, rfl⟩
      simp [h r hr]
    rw [kpiOrders, hnil]
    simp
  · rintro ⟨r, hr, hne⟩
    have hmem : r.__orderId ∈
        (rows.map (fun r => r.__orderId)).filter (fun s => s ≠ "") := by
      rw [List.mem_filter]
      exact ⟨List.mem_map.mpr ⟨r, hr, rfl⟩, by simpa using hne⟩
    have hlen :
        ¬((rows.map (fun r => r.__orderId)).filter
          (fun s => s ≠ "")).dedup.length = 0 := by
      rw [List.length_eq_zero, List.dedup_eq_nil]
      intro hh
      rw [hh] at hmem
      cases hmem
    rw [kpiOrders]
    simp only [if_neg hlen]
    exact (List.card_toFinset _).symm

/-- Witness for C7 at a concrete two-row collection sharing one non-empty
identifier. -/
theorem c7_order_count_witness :
    kpiOrders [rowA1West, rowA1East] =
      ((([rowA1West, rowA1East] : List Row).map
        (fun r => r.__orderId)).filter (fun s => s ≠ "")).toFinset.card :=
  (c7_order_count [rowA1West, rowA1East]).2
    ⟨rowA1West, List.mem_cons_self _ _, by decide⟩

/-- C9 (confirmed):  At the ingestion boundary every parsed record with
at most one populated key (key present in the record) is discarded before
reaching the core, every record with more than one is kept, and the
surviving records keep their order. -/
theorem c9_ingestion_filter (data : List RawRecord) :
    List.Sublist (ingestFilter data) data ∧
    ∀ r : RawRecord, (ingestFilter data).count r =
      if 1 < (r.map Prod.fst).length then data.count r else 0 := by
  constructor
  · exact List.filter_sublist data
  · intro r
    by_cases hp : 1 < (r.map Prod.fst).length
    · rw [if_pos hp, ingestFilter]
      exact List.count_filter (by simpa [ingestKeep] using hp)
    · rw [if_neg hp, List.count_eq_zero]
      intro hmem
      exact hp (by simpa [ingestKeep] using (List.mem_filter.mp hmem).2)

/-- C10 (confirmed):  The scatter projection (profit vs. base margin)
emits exactly one `(baseMargin, profit, category)` triple per filtered
row — its output is the straight projection of the filtered rows and its
length equals the filtered row count — because numeric coercion always
assigns finite numbers to `baseMargin` and `profit`, so the finiteness
filter never rejects a row. -/
theorem c10_scatter_projection (raws : List RawRecord) (fs : FilterState) :
    profitVsBaseMargin (filteredPipeline raws fs) =
      (filteredPipeline raws fs).map
        (fun r => (r.__baseMargin, r.__profit, r.__category)) ∧
    (profitVsBaseMargin (filteredPipeline raws fs)).length =
      (filteredPipeline raws fs).length := by
  have hmap : profitVsBaseMargin (filteredPipeline raws fs) =
      (filteredPipeline raws fs).map
        (fun r => (r.__baseMargin, r.__profit, r.__category)) := by
    rw [profitVsBaseMargin]
    apply List.filter_eq_self.mpr
    intro p hp
    rcases List.mem_map.mp hp with ⟨r, hr, rfl⟩
    rcases mem_filteredPipeline hr with ⟨raw, rfl⟩
    simp [jsFinite, rowOfRaw_baseMargin_isSome raw, rowOfRaw_profit_isSome raw]
  exact ⟨hmap, by rw [hmap, List.length_map]⟩

theorem ciIndex_fold_lookup (key : String) :
    ∀ (ps : List (String × Option String)) (m : List (String × String)),
      mapGet (ps.foldl (fun m p => mapSet m (lowerTrim p.1) p.1) m) key =
        ((ps.map Prod.fst).reverse.find?
          (fun kk => lowerTrim kk == key)).orElse
          (fun _ => mapGet m key) := by
  intro ps
  induction ps with
  | nil => intro m; simp [Option.orElse]
  | cons p rest ih =>
    intro m
    rw [List.foldl_cons, ih (mapSet m (lowerTrim p.1) p.1)]
    rw [List.map_cons, List.reverse_cons, List.find?_append]
    cases hf : (rest.map Prod.fst).reverse.find?
        (fun kk => lowerTrim kk == key) with
    | some v => simp [Option.orElse, Option.or, hf]
    | none =>
      simp only [Option.orElse, Option.or, hf]
      rw [mapGet_mapSet]
      by_cases hb : lowerTrim p.1 = key
      · simp [List.find?, hb]
      · have hb2 : (lowerTrim p.1 == key) = false := beq_eq_false_iff_ne.mpr hb
        simp [List.find?, hb, hb2]

theorem ciHit_eq_ciResolve (r : RawRecord) (want : String) :
    ciHit r want = ciResolve r want := by
  rw [ciHit, ciResolve, ciKeyFor, ciIndex,
    ciIndex_fold_lookup (lowerTrim want) r []]
  cases hf : (r.map Prod.fst).reverse.find?
      (fun kk => lowerTrim kk == lowerTrim want) with
  | some v => simp [Option.orElse, hf]
  | none => simp [Option.orElse, hf, mapGet]

/-- C6 (corrected):  For every Raw Record and ordered alias list, the
Field Resolver returns the trimmed value of the first alias resolving to a
non-empty-after-trim value, searching first by exact key match in alias
order and, only if no alias matched, case-insensitively — amended: the
case-insensitive pass resolves each alias through an index of the
record's keys by folded (lowercased, trimmed) form in which later keys
shadow earlier ones and an empty-string key is never used; only the
alias's indexed key (not every case-insensitive match) is consulted.  It
returns empty text, never raising, when no alias resolves. -/
theorem c6_field_resolver :
    (∀ (r : RawRecord) (keys : List String),
      pick r keys = fieldResolverSpec r keys) ∧
    pick [("order date", some " 2014-01-05 ")] ["Order Date", "order date"]
      = "2014-01-05" ∧
    pick [("ORDER DATE", some " 2014-01-05 ")] ["Order Date", "order date"]
      = "2014-01-05" ∧
    pick [("x", some "1")] ["Order Date"] = "" := by
  refine ⟨?_, by decide, by decide, by decide⟩
  intro r keys
  rw [pick, fieldResolverSpec]
  simp only [ciHit_eq_ciResolve]

/-- Counterexample to C6 as stated: in the record
`{"STATE": "CA", "state ": " "}` both keys fold to `"state"`.  The alias
`"state"` matches no key exactly, and case-insensitively matches the key
`"STATE"`, whose value `"CA"` is non-empty after trimming — so the claim
requires the resolver to return `"CA"`.  The code's folded-key index is
last-wins: it maps `"state"` to the key `"state "`, whose value trims to
empty, so `pick` skips the alias and returns `""`. -/
theorem c6_counterexample :
    pick [("STATE", some "CA"), ("state ", some " ")] ["state"] = "" ∧
    lowerTrim "STATE" = lowerTrim "state" ∧
    mapGet [("STATE", (some "CA" : Option String)), ("state ", some " ")]
      "STATE" = some (some "CA") ∧
    trimStr "CA" ≠ "" ∧ ("" : String) ≠ "CA" := by decide

/-- Sum-correctness for any sorted grouped-sum view: each emitted entry
carries the exact sum of the metric over the rows with its key. -/
theorem sorted_group_value (keyF : Row → String) (valF : Row → JSNum)
    (rows : List Row) (hv : ∀ r ∈ rows, (valF r).isSome)
    {kv : String × JSNum}
    (hmem : kv ∈ sortByValueDesc (groupFold keyF valF rows)) :
    kv.2 = some (metricSum keyF valF kv.1 rows) := by
  obtain ⟨k, v⟩ := kv
  exact groupFold_value keyF valF rows hv
    ((mem_sortByLe entryLeDesc (groupFold keyF valF rows) (k, v)).mp hmem)

/-- Stability of the descending sort: entries with equal values keep the
accumulation (insertion) order. -/
theorem sorted_group_stable {l : List (String × JSNum)}
    {a b : String × JSNum} (heq : qOf a.2 = qOf b.2)
    (hsub : List.Sublist [a, b] l) :
    List.Sublist [a, b] (sortByValueDesc l) :=
  sortByLe_pair_sublist entryLeDesc
    (by simp [entryLeDesc, heq]) hsub

/-- C2 (confirmed):  For every filtered row collection produced by the
pipeline, each grouped-sum view accumulates one metric into a mapping
keyed by a categorical field and emits `(key, value)` pairs sorted
descending by value, every emitted value equals the exact sum of that
metric over the filtered rows having that key, ties keep the
deterministic insertion order, and truncation to top-N (N = 10 for the
sub-category profit view, N = 8 for the product-container sales view) is
applied after the descending sort. -/
theorem c2_grouped_sums (raws : List RawRecord) (fs : FilterState) :
    (∀ kv ∈ bySegmentItems (filteredPipeline raws fs),
      kv.2 = some (metricSum (fun r => r.__segment) (fun r => r.__sales)
        kv.1 (filteredPipeline raws fs))) ∧
    (bySegmentItems (filteredPipeline raws fs)).Pairwise
      (fun a b => qOf b.2 ≤ qOf a.2) ∧
    (∀ a b : String × JSNum, qOf a.2 = qOf b.2 →
      List.Sublist [a, b] (groupFold (fun r => r.__segment)
        (fun r => r.__sales) (filteredPipeline raws fs)) →
      List.Sublist [a, b] (bySegmentItems (filteredPipeline raws fs))) ∧
    profitBySubCategoryItems (filteredPipeline raws fs) =
      (sortByValueDesc (groupFold (fun r => r.__subCategory)
        (fun r => r.__profit) (filteredPipeline raws fs))).take 10 ∧
    (∀ kv ∈ profitBySubCategoryItems (filteredPipeline raws fs),
      kv.2 = some (metricSum (fun r => r.__subCategory)
        (fun r => r.__profit) kv.1 (filteredPipeline raws fs))) ∧
    (profitBySubCategoryItems (filteredPipeline raws fs)).Pairwise
      (fun a b => qOf b.2 ≤ qOf a.2) ∧
    salesByProductContainerItems (filteredPipeline raws fs) =
      (sortByValueDesc (groupFold (fun r => r.__productContainer)
        (fun r => r.__sales) (filteredPipeline raws fs))).take 8 ∧
    (∀ kv ∈ salesByProductContainerItems (filteredPipeline raws fs),
      kv.2 = some (metricSum (fun r => r.__productContainer)
        (fun r => r.__sales) kv.1 (filteredPipeline raws fs))) ∧
    (salesByProductContainerItems (filteredPipeline raws fs)).Pairwise
      (fun a b => qOf b.2 ≤ qOf a.2) := by
  have hsales := filteredPipeline_sales_isSome raws fs
  have hprofit := filteredPipeline_profit_isSome raws fs
  refine ⟨?_, ?_, ?_, rfl, ?_, ?_, rfl, ?_, ?_⟩
  · intro kv hkv
    exact sorted_group_value _ _ _ hsales hkv
  · exact sortByValueDesc_pairwise _
  · intro a b heq hsub
    exact sorted_group_stable heq hsub
  · intro kv hkv
    exact sorted_group_value _ _ _ hprofit (List.take_subset 10 _ hkv)
  · exact (sortByValueDesc_pairwise _).sublist (List.take_sublist 10 _)
  · intro kv hkv
    exact sorted_group_value _ _ _ hsales (List.take_subset 8 _ hkv)
  · exact (sortByValueDesc_pairwise _).sublist (List.take_sublist 8 _)

/-- Witness for C2's sum-correctness clause on a concrete one-record
pipeline: the `Corporate` segment entry holds the exact sales sum. -/
theorem c2_grouped_sums_witness :
    (("Corporate", (some 10 : JSNum)) : String × JSNum).2 =
      some (metricSum (fun r => r.__segment) (fun r => r.__sales)
        "Corporate" (filteredPipeline [rawCorporate] fsAll)) :=
  (c2_grouped_sums [rawCorporate] fsAll).1 ("Corporate", some 10) (by decide)

theorem jsOrDefault_of_ne {s : String} (h : s ≠ "") (d : String) :
    jsOrDefault s d = s := by
  rw [jsOrDefault, if_neg h]

theorem head?_take10 {α : Type} (l : List α) : (l.take 10).head? = l.head? := by
  cases l <;> rfl

/-- C3 (corrected):  Over any pipeline-produced filtered row
collection, every insight "top entry" is position 0 of the descending
sort of the corresponding grouped sum over the same rows: the top region,
category and segment equal the head of the grouped-sum-of-sales by that
field, the best sub-category equals the head of the grouped-sum-of-profit
by sub-category (truncation happens after sorting, so the heads agree) —
amended: the top state equals the head of the grouped-sum-of-sales keyed
by state *with an empty state mapped to `"Unknown"`* (the insights
computation remaps empty keys; a plain state grouping can disagree, see
the counterexample) — and the best month is a maximal-sales bucket of the
monthly series. -/
theorem c3_insights (raws : List RawRecord) (fs : FilterState) :
    (insightsOf (filteredPipeline raws fs)).topRegion =
      (salesByRegionItems (filteredPipeline raws fs)).head? ∧
    (insightsOf (filteredPipeline raws fs)).topCategory =
      (byCategoryItems (filteredPipeline raws fs)).head? ∧
    (insightsOf (filteredPipeline raws fs)).topSegment =
      (bySegmentItems (filteredPipeline raws fs)).head? ∧
    (insightsOf (filteredPipeline raws fs)).bestSubcat =
      (profitBySubCategoryItems (filteredPipeline raws fs)).head? ∧
    (insightsOf (filteredPipeline raws fs)).topState =
      (sortByValueDesc (groupFold
        (fun r => jsOrDefault r.__state "Unknown")
        (fun r => r.__sales) (filteredPipeline raws fs))).head? ∧
    (match (insightsOf (filteredPipeline raws fs)).bestMonth with
     | none => byMonthX (filteredPipeline raws fs) = []
     | some kv =>
       (∃ i, (byMonthX (filteredPipeline raws fs)).get? i = some kv.1 ∧
         (byMonthSales (filteredPipeline raws fs)).get? i = some kv.2) ∧
       ∀ w ∈ byMonthSales (filteredPipeline raws fs), qOf w ≤ qOf kv.2) := by
  have hreg : ∀ r ∈ filteredPipeline raws fs,
      jsOrDefault r.__region "Unknown" = r.__region := by
    intro r hr
    rcases mem_filteredPipeline hr with ⟨raw, rfl⟩
    exact jsOrDefault_of_ne (rowOfRaw_region_ne raw) "Unknown"
  have hcat : ∀ r ∈ filteredPipeline raws fs,
      jsOrDefault r.__category "Unknown" = r.__category := by
    intro r hr
    rcases mem_filteredPipeline hr with ⟨raw, rfl⟩
    exact jsOrDefault_of_ne (rowOfRaw_category_ne raw) "Unknown"
  have hseg : ∀ r ∈ filteredPipeline raws fs,
      jsOrDefault r.__segment "Unknown" = r.__segment := by
    intro r hr
    rcases mem_filteredPipeline hr with ⟨raw, rfl⟩
    exact jsOrDefault_of_ne (rowOfRaw_segment_ne raw) "Unknown"
  have hsub : ∀ r ∈ filteredPipeline raws fs,
      jsOrDefault r.__subCategory "Unknown" = r.__subCategory := by
    intro r hr
    rcases mem_filteredPipeline hr with ⟨raw, rfl⟩
    exact jsOrDefault_of_ne (rowOfRaw_subCategory_ne raw) "Unknown"
  refine ⟨?_, ?_, ?_, ?_, rfl, ?_⟩
  · show (sortByValueDesc (groupFold
        (fun r => jsOrDefault r.__region "Unknown") (fun r => r.__sales)
        (filteredPipeline raws fs))).head? = _
    rw [groupFold_congr (fun r => jsOrDefault r.__region "Unknown")
      (fun r => r.__region) (fun r => r.__sales)
      (filteredPipeline raws fs) hreg]
    rfl
  · show (sortByValueDesc (groupFold
        (fun r => jsOrDefault r.__category "Unknown") (fun r => r.__sales)
        (filteredPipeline raws fs))).head? = _
    rw [groupFold_congr (fun r => jsOrDefault r.__category "Unknown")
      (fun r => r.__category) (fun r => r.__sales)
      (filteredPipeline raws fs) hcat]
    rfl
  · show (sortByValueDesc (groupFold
        (fun r => jsOrDefault r.__segment "Unknown") (fun r => r.__sales)
        (filteredPipeline raws fs))).head? = _
    rw [groupFold_congr (fun r => jsOrDefault r.__segment "Unknown")
      (fun r => r.__segment) (fun r => r.__sales)
      (filteredPipeline raws fs) hseg]
    rfl
  · show (sortByValueDesc (groupFold
        (fun r => jsOrDefault r.__subCategory "Unknown") (fun r => r.__profit)
        (filteredPipeline raws fs))).head? = _
    rw [groupFold_congr (fun r => jsOrDefault r.__subCategory "Unknown")
      (fun r => r.__subCategory) (fun r => r.__profit)
      (filteredPipeline raws fs) hsub]
    rw [profitBySubCategoryItems]
    exact (head?_take10 _).symm
  · have hsome : ∀ r ∈ filteredPipeline raws fs, (r.__sales).isSome :=
      filteredPipeline_sales_isSome raws fs
    have hproj : monthSalesEntries (filteredPipeline raws fs) =
        (monthFold (filteredPipeline raws fs)).map (fun p => (p.1, p.2.1)) :=
      monthSalesEntries_eq _ hsome
    cases hbm : (insightsOf (filteredPipeline raws fs)).bestMonth with
    | none =>
      have hbm2 : (sortByValueDesc
          (monthSalesEntries (filteredPipeline raws fs))).head? = none := hbm
      have h1 : sortByValueDesc
          (monthSalesEntries (filteredPipeline raws fs)) = [] := by
        cases hl : sortByValueDesc
            (monthSalesEntries (filteredPipeline raws fs)) with
        | nil => rfl
        | cons e t =>
          rw [hl, List.head?_cons] at hbm2
          cases hbm2
      have h2 : monthSalesEntries (filteredPipeline raws fs) = [] := by
        have hp : List.Perm
            (sortByValueDesc (monthSalesEntries (filteredPipeline raws fs)))
            (monthSalesEntries (filteredPipeline raws fs)) :=
          sortByLe_perm entryLeDesc _
        rw [h1] at hp
        exact hp.symm.eq_nil
      have h3 : monthFold (filteredPipeline raws fs) = [] := by
        rw [hproj] at h2
        exact List.map_eq_nil_iff.mp h2
      rw [byMonthX, h3]
      rfl
    | some kv =>
      obtain ⟨k, v⟩ := kv
      have hbm2 : (sortByValueDesc
          (monthSalesEntries (filteredPipeline raws fs))).head?
          = some (k, v) := hbm
      have hmemsort : (k, v) ∈ sortByValueDesc
          (monthSalesEntries (filteredPipeline raws fs)) := by
        cases hl : sortByValueDesc
            (monthSalesEntries (filteredPipeline raws fs)) with
        | nil => rw [hl, List.head?_nil] at hbm2; cases hbm2
        | cons e t =>
          rw [hl, List.head?_cons] at hbm2
          rw [Option.some.inj hbm2]
          exact List.mem_cons_self _ _
      have hmem : (k, v) ∈ monthSalesEntries (filteredPipeline raws fs) :=
        (mem_sortByLe _ _ _).mp hmemsort
      rw [hproj] at hmem
      rcases List.mem_map.mp hmem with ⟨p, hpmem, hpeq⟩
      have hk : p.1 = k := congrArg Prod.fst hpeq
      have hv : p.2.1 = v := congrArg Prod.snd hpeq
      have hkentry : (k, p.2) ∈ monthFold (filteredPipeline raws fs) := by
        have hpe : p = (k, p.2) := by
          rw [← hk]
        rw [← hpe]
        exact hpmem
      have hget : mapGet (monthFold (filteredPipeline raws fs)) k = some p.2 :=
        mapGet_eq_some_of_mem (monthFold_keys_nodup _) hkentry
      have hkx : k ∈ byMonthX (filteredPipeline raws fs) := by
        rw [byMonthX]
        exact (mem_sortByLe _ _ _).mpr (List.mem_map.mpr ⟨p, hpmem, hk⟩)
      obtain ⟨i, hi⟩ := List.mem_iff_get?.mp hkx
      refine ⟨⟨i, hi, ?_⟩, ?_⟩
      · rw [byMonthSales, List.get?_map, hi]
        simp [hget, hv]
      · intro w hw
        rw [byMonthSales] at hw
        rcases List.mem_map.mp hw with ⟨k2, hk2x, rfl⟩
        rw [byMonthX] at hk2x
        have hk2keys : k2 ∈ (monthFold (filteredPipeline raws fs)).map
            Prod.fst := (mem_sortByLe _ _ _).mp hk2x
        rcases List.mem_map.mp hk2keys with ⟨p2, hp2mem, hp2k⟩
        have hget2 : mapGet (monthFold (filteredPipeline raws fs)) k2
            = some p2.2 := by
          refine mapGet_eq_some_of_mem (monthFold_keys_nodup _) ?_
          have hpe2 : p2 = (k2, p2.2) := by
            rw [← hp2k]
          rw [← hpe2]
          exact hp2mem
        have hentry2 : (k2, p2.2.1) ∈ monthSalesEntries
            (filteredPipeline raws fs) := by
          rw [hproj]
          refine List.mem_map.mpr ⟨p2, hp2mem, ?_⟩
          rw [hp2k]
        have hmax := sortByValueDesc_head_max hbm2 (k2, p2.2.1) hentry2
        rw [hget2]
        simpa using hmax

/-- Witness for C3 on a concrete one-record pipeline: the top-segment
insight is the head of the sales-by-segment view. -/
theorem c3_insights_witness :
    (insightsOf (filteredPipeline [rawCorporate] fsAll)).topSegment =
      (bySegmentItems (filteredPipeline [rawCorporate] fsAll)).head? :=
  (c3_insights [rawCorporate] fsAll).2.2.1

/-- Counterexample to C3 as stated: a pipeline row whose state column is
missing keeps `__state = ""`.  The insights computation groups it under
`"Unknown"`, while the grouped-sum-of-sales keyed by the state field has
head key `""` — so the top-state insight differs from position 0 of the
plain state grouped sum. -/
theorem c3_counterexample :
    (insightsOf (filteredPipeline [rawNoState] fsAll)).topState
      = some ("Unknown", some 10) ∧
    (sortByValueDesc (groupFold (fun r => r.__state) (fun r => r.__sales)
      (filteredPipeline [rawNoState] fsAll))).head? = some ("", some 10) ∧
    ("Unknown" : String) ≠ "" := by decide

-- Sanity checks for the primitives (kernel-evaluated).
example : trimStr "  a b " = "a b" := by decide
example : splitOnChar '-' "15-03-2015" = ["15", "03", "2015"] := by decide
example : splitOnChar '-' "" = [""] := by decide
example : jsStrNumber "1234.50" = some (Rat.divInt 2469 2) := by decide
example : jsStrNumber "" = some 0 := by decide
example : jsStrNumber "abc" = none := by decide
example : jsStrNumber "-2.5" = some (Rat.divInt (-5) 2) := by decide
example : jsStrNumber ".5" = some (Rat.divInt 1 2) := by decide
example : jsStrNumber "1." = some 1 := by decide
example : jsStrNumber "." = none := by decide
example : truncQ (Rat.divInt (-5) 2) = -2 := by decide
example : jsAdd (some 2) (some (Rat.divInt 1 2)) = some (Rat.divInt 5 2) := by
  decide

-- Sanity checks for the date model.
example : jsNewDateStr "2015-03-15" = JSDateV.valid 2015 2 15 := by decide
example : jsNewDateStr "2015-02-30" = JSDateV.invalid := by decide
example : jsNewDateStr "15-03-2015" = JSDateV.invalid := by decide
example : parseDate (some "2015-03-15") = some (JSDateV.valid 2015 2 15) := by
  decide
example : parseDate (some "15-03-2015") = some (JSDateV.valid 2015 2 15) := by
  decide
example : parseDate (some "02/03/2015") = some (JSDateV.valid 2015 1 3) := by
  decide
example : parseDate (some "15.03.2015") = some (JSDateV.valid 2015 2 15) := by
  decide
example : parseDate (some "") = none := by decide
example : parseDate (some "   ") = none := by decide
example : parseDate (some "hello") = none := by decide
example : parseDate (some "1/2/3/4") = some (JSDateV.valid 1903 0 2) := by
  decide
example : parseDate (some "a-b-c") = some JSDateV.invalid := by decide
example : monthKey (JSDateV.valid 2014 0 5) = "2014-01" := by decide
example : monthKey (JSDateV.valid 2014 11 5) = "2014-12" := by decide

-- Sanity checks for records and rows.
example : pick [("order date", some " 2014-01-05 ")] ["Order Date", "order date"]
    = "2014-01-05" := by decide
example : pick [("ORDER DATE", some " 2014-01-05 ")] ["Order Date", "order date"]
    = "2014-01-05" := by decide
example : pick [("x", some "1")] ["y"] = "" := by decide
example : toNumber (some "$1,234.50") = some (Rat.divInt 2469 2) := by decide
example : toNumber (some "12%") = some 12 := by decide
example : toNumber (some "") = some 0 := by decide
example : toNumber none = some 0 := by decide
example : toNumber (some "abc") = some 0 := by decide
example :
    (rowOfRaw [("Order Date", some "2014-01-05"), ("Sales", some "10"),
      ("Customer Segment", some "Corporate")]).__segment = "Corporate" := by
  decide
example :
    (rowOfRaw [("Order Date", some "2014-01-05"), ("Sales", some "10"),
      ("Customer Segment", some "Corporate")]).__orderDate
      = some (JSDateV.valid 2014 0 5) := by decide
example :
    (rowOfRaw [("Order Date", some "2014-01-05"), ("Sales", some "10")]).__sales
      = some 10 := by decide
example :
    (rowOfRaw [("Order Date", some "2014-01-05"), ("Sales", some "10")]).__state
      = "" := by decide
example :
    rowPasses ⟨"All", "All", "All", "All", "All", 2010, 2016⟩
      (rowOfRaw [("Order Date", some "2014-01-05"), ("Sales", some "10")])
      = true := by decide
example :
    rowPasses ⟨"All", "All", "All", "All", "All", 2013, 2016⟩
      (rowOfRaw [("Order Date", some "2012-01-05"), ("Sales", some "10")])
      = false := by decide

-- Sanity checks for the aggregation layer.
example :
    sortByValueDesc [("A", some 10), ("B", some 30), ("C", some 10)]
      = [("B", some 30), ("A", some 10), ("C", some 10)] := by decide
example : sortByLe strLeB ["2014-02", "2013-12", "2014-01"]
    = ["2013-12", "2014-01", "2014-02"] := by decide
example :
    groupFold (fun r => r.__segment) (fun r => r.__sales)
      [rowOfRaw [("Segment", some "A"), ("Sales", some "10")],
       rowOfRaw [("Segment", some "B"), ("Sales", some "30")],
       rowOfRaw [("Segment", some "A"), ("Sales", some "5")]]
      = [("A", some 15), ("B", some 30)] := by decide
example :
    bySegmentItems
      [rowOfRaw [("Segment", some "A"), ("Sales", some "10")],
       rowOfRaw [("Segment", some "B"), ("Sales", some "30")],
       rowOfRaw [("Segment", some "A"), ("Sales", some "5")]]
      = [("B", some 30), ("A", some 15)] := by decide
example :
    kpiOrders [rowOfRaw [("Order ID", some "7"), ("Sales", some "1")],
      rowOfRaw [("Order ID", some "7"), ("Sales", some "2")]] = 1 := by decide
example :
    kpiOrders [rowOfRaw [("Sales", some "1")], rowOfRaw [("Sales", some "2")]]
      = 2 := by decide
example :
    (insightsOf (filteredPipeline
      [[("Order Date", some "2014-01-05"), ("Sales", some "10")]]
      ⟨"All", "All", "All", "All", "All", 2010, 2016⟩)).topState
      = some ("Unknown", some 10) := by decide
example :
    byMonthX [rowOfRaw [("Order Date", some "2014-01-10"), ("Sales", some "100")],
      rowOfRaw [("Order Date", some "2014-01-20"), ("Sales", some "50")]]
      = ["2014-01"] := by decide
example :
    byMonthSales
      [rowOfRaw [("Order Date", some "2014-01-10"), ("Sales", some "100")],
       rowOfRaw [("Order Date", some "2014-01-20"), ("Sales", some "50")]]
      = [some 150] := by decide
